import Mathlib

/-!
Verification of the tap-linkedin-ads incremental-extraction engine
(`tap_linkedin_ads/streams.py` and `tap_linkedin_ads/urn_resolver.py`).

The Python source is shallowly embedded: pure helpers become Lean functions,
dictionaries become association lists (position-preserving update, append on
new keys, like Python dicts), network calls become oracle parameters, and
`datetime.date` arithmetic is embedded through a proleptic-Gregorian
day-number conversion (Python's `datetime.date` totally orders valid dates
and `date + timedelta(days=n)` adds `n` to the day ordinal, so the library
behaviour is modelled by the standard civil-calendar conversion below).
-/

/-! ### Generic helpers: association lists (Python dict) and bounded checks -/

/-- Lookup in an association list, first match wins (Python dict lookup:
keys are unique in a dict, so first match is the match). -/
def assocLookup {κ β : Type} [DecidableEq κ] (m : List (κ × β)) (k : κ) : Option β :=
  match m with
  | [] => none
  | (k', v) :: rest => if k' = k then some v else assocLookup rest k

/-- `d[k] = v` on an association list: overwrite in place, append if absent
(Python dict assignment keeps the key's insertion position). -/
def assocSet {κ β : Type} [DecidableEq κ] (m : List (κ × β)) (k : κ) (v : β) : List (κ × β) :=
  match m with
  | [] => [(k, v)]
  | (k', v') :: rest => if k' = k then (k, v) :: rest else (k', v') :: assocSet rest k v

theorem assocLookup_assocSet_self {κ β : Type} [DecidableEq κ]
    (m : List (κ × β)) (k : κ) (v : β) : assocLookup (assocSet m k v) k = some v := by
  induction m with
  | nil => simp [assocSet, assocLookup]
  | cons p rest ih =>
    by_cases h : p.1 = k
    · simp [assocSet, assocLookup, h]
    · simp [assocSet, assocLookup, h, ih]

theorem assocLookup_assocSet_ne {κ β : Type} [DecidableEq κ]
    (m : List (κ × β)) (k k' : κ) (v : β) (h : k ≠ k') :
    assocLookup (assocSet m k v) k' = assocLookup m k' := by
  induction m with
  | nil => simp [assocSet, assocLookup, h]
  | cons p rest ih =>
    by_cases hp : p.1 = k
    · simp [assocSet, assocLookup, hp, h]
    · simp [assocSet, assocLookup, hp, ih]

/-- Divide-and-conquer range checker: `allB p fuel lo len` decides
`p` on `[lo, lo+len)` with recursion depth logarithmic in `len`. -/
def allB (p : Nat → Bool) : Nat → Nat → Nat → Bool
  | 0, _, _ => false
  | _ + 1, _, 0 => true
  | _ + 1, lo, 1 => p lo
  | fuel + 1, lo, n + 2 =>
    allB p fuel lo ((n + 2) / 2) && allB p fuel (lo + (n + 2) / 2) (n + 2 - (n + 2) / 2)

theorem allB_spec (p : Nat → Bool) :
    ∀ fuel lo len, allB p fuel lo len = true → ∀ i, i < len → p (lo + i) = true := by
  intro fuel
  induction fuel with
  | zero => intro lo len h i hi; simp [allB] at h
  | succ n ih =>
    intro lo len h i hi
    cases len with
    | zero => omega
    | succ l =>
      cases l with
      | zero =>
        have hi0 : i = 0 := by omega
        subst hi0
        simpa [allB] using h
      | succ k =>
        simp only [allB, Bool.and_eq_true] at h
        by_cases hc : i < (k + 2) / 2
        · exact ih lo _ h.1 i hc
        · have h2 := ih (lo + (k + 2) / 2) _ h.2 (i - (k + 2) / 2) (by omega)
          rw [show lo + (k + 2) / 2 + (i - (k + 2) / 2) = lo + i by omega] at h2
          exact h2

/-! ### Dates: the behaviour of Python `datetime.date` / `timedelta`

`streams.py` manipulates `datetime.date` values (construction from
year/month/day fields, `+ timedelta(days=n)`, `min`, and comparisons).
A date is its (year, month, day) field triple; day-ordinal conversion uses
the standard civil-calendar algorithm, and we prove the round trip so that
`addDays` provably shifts the ordinal. Python compares dates by their
ordinal (equivalently, lexicographically on valid triples). -/

structure PDate where
  year : Int
  month : Int
  day : Int
deriving DecidableEq

/-- First day (day-of-era) of year-of-era `y`: `365*y` plus the leap days
before year `y` inside one 400-year era. -/
def eraStart (y : Int) : Int := 365 * y + y / 4 - y / 100

/-- Numerator used to recover the year-of-era from a day-of-era. -/
def yoeNum (d : Int) : Int := d - d / 1460 + d / 36524 - d / 146096

/-- Day ordinal (days since 1970-01-01) of a civil date. -/
def daysFromCivil (dt : PDate) : Int :=
  let y := if dt.month ≤ 2 then dt.year - 1 else dt.year
  let era := y / 400
  let yoe := y - era * 400
  let mp := if dt.month ≤ 2 then dt.month + 9 else dt.month - 3
  let doy := (153 * mp + 2) / 5 + dt.day - 1
  era * 146097 + eraStart yoe + doy - 719468

/-- Civil date of a day ordinal (inverse of `daysFromCivil`). -/
def civilFromDays (z0 : Int) : PDate :=
  let z := z0 + 719468
  let era := z / 146097
  let doe := z - era * 146097
  let yoe := yoeNum doe / 365
  let doy := doe - eraStart yoe
  let mp := (5 * doy + 2) / 153
  let d := doy - (153 * mp + 2) / 5 + 1
  let m := if mp < 10 then mp + 3 else mp - 9
  ⟨if m ≤ 2 then yoe + era * 400 + 1 else yoe + era * 400, m, d⟩

def yoeLowB (y : Nat) : Bool := decide (365 * (y : Int) ≤ yoeNum (eraStart (y : Int)))

def yoeHighB (y : Nat) : Bool :=
  decide (yoeNum (eraStart ((y : Int) + 1) - 1) ≤ 365 * (y : Int) + 364)

theorem yoeLow_all : allB yoeLowB 12 0 400 = true := by decide

theorem yoeHigh_all : allB yoeHighB 12 0 399 = true := by decide

theorem yoeLow (y : Int) (h0 : 0 ≤ y) (h1 : y ≤ 399) :
    365 * y ≤ yoeNum (eraStart y) := by
  have h := allB_spec yoeLowB 12 0 400 yoeLow_all y.toNat (by omega)
  rw [yoeLowB, decide_eq_true_eq] at h
  simpa [Int.toNat_of_nonneg h0] using h

theorem yoeHigh (y : Int) (h0 : 0 ≤ y) (h1 : y ≤ 398) :
    yoeNum (eraStart (y + 1) - 1) ≤ 365 * y + 364 := by
  have h := allB_spec yoeHighB 12 0 399 yoeHigh_all y.toNat (by omega)
  rw [yoeHighB, decide_eq_true_eq] at h
  simpa [Int.toNat_of_nonneg h0] using h

theorem yoeNum_step (d : Int) : yoeNum d ≤ yoeNum (d + 1) := by
  simp only [yoeNum]
  omega

theorem yoeNum_mono {a b : Int} (h : a ≤ b) : yoeNum a ≤ yoeNum b := by
  have key : ∀ (n : Nat) (c : Int), yoeNum c ≤ yoeNum (c + n) := by
    intro n
    induction n with
    | zero => intro c; simp
    | succ m ih =>
      intro c
      have h1 := ih c
      have h2 := yoeNum_step (c + m)
      have h3 : (c + (m + 1 : Nat)) = (c + m) + 1 := by push_cast; ring
      rw [h3]
      omega
  have hb : b = a + (b - a).toNat := by omega
  rw [hb]
  exact key _ a

theorem yoe_correct (d : Int) (h0 : 0 ≤ d) (h1 : d ≤ 146096) :
    0 ≤ yoeNum d / 365 ∧ yoeNum d / 365 ≤ 399 ∧
    eraStart (yoeNum d / 365) ≤ d ∧ d - eraStart (yoeNum d / 365) ≤ 365 := by
  have hnum0 : 0 ≤ yoeNum d := by simp only [yoeNum]; omega
  have hbounds : 0 ≤ yoeNum d / 365 ∧ yoeNum d / 365 ≤ 399 := by
    simp only [yoeNum]
    omega
  obtain ⟨hy0, hy399⟩ := hbounds
  set yv := yoeNum d / 365 with hyv
  have hdiv : 365 * yv ≤ yoeNum d := by omega
  refine ⟨hy0, hy399, ?_, ?_⟩
  · by_contra hcon
    push_neg at hcon
    have hyv1 : 1 ≤ yv := by
      by_contra hy
      push_neg at hy
      have hz : yv = 0 := by omega
      rw [hz] at hcon
      simp [eraStart] at hcon
      omega
    have hb2 := yoeHigh (yv - 1) (by omega) (by omega)
    rw [show yv - 1 + 1 = yv by ring] at hb2
    have hmono := yoeNum_mono (show d ≤ eraStart yv - 1 by omega)
    omega
  · have hlow : eraStart yv ≤ d := by
      by_contra hcon
      push_neg at hcon
      have hyv1 : 1 ≤ yv := by
        by_contra hy
        push_neg at hy
        have hz : yv = 0 := by omega
        rw [hz] at hcon
        simp [eraStart] at hcon
        omega
      have hb2 := yoeHigh (yv - 1) (by omega) (by omega)
      rw [show yv - 1 + 1 = yv by ring] at hb2
      have hmono := yoeNum_mono (show d ≤ eraStart yv - 1 by omega)
      omega
    by_contra hcon
    push_neg at hcon
    by_cases hcase : yv ≤ 398
    · have hstep : eraStart (yv + 1) ≤ eraStart yv + 366 := by
        simp only [eraStart]
        omega
      have hmono := yoeNum_mono (show eraStart (yv + 1) ≤ d by omega)
      have hb1 := yoeLow (yv + 1) (by omega) (by omega)
      have hge : 365 * (yv + 1) ≤ yoeNum d := by omega
      have : yv + 1 ≤ yoeNum d / 365 := by omega
      omega
    · have hyv399 : yv = 399 := by omega
      have he : eraStart 399 = 145731 := by simp [eraStart]
      rw [hyv399] at hcon
      omega

set_option maxHeartbeats 1000000 in
theorem daysFromCivil_civilFromDays (z : Int) : daysFromCivil (civilFromDays z) = z := by
  have hdoe0 : 0 ≤ z + 719468 - (z + 719468) / 146097 * 146097 := by omega
  have hdoe1 : z + 719468 - (z + 719468) / 146097 * 146097 ≤ 146096 := by omega
  obtain ⟨hy0, hy399, hlow, hhigh⟩ := yoe_correct _ hdoe0 hdoe1
  simp only [civilFromDays, daysFromCivil]
  set doe := z + 719468 - (z + 719468) / 146097 * 146097 with hdoe
  set era := (z + 719468) / 146097 with hera
  set yv := yoeNum doe / 365 with hyv
  set doy := doe - eraStart yv with hdoy
  set mp := (5 * doy + 2) / 153 with hmp
  have hdoy0 : 0 ≤ doy := by omega
  have hdoy365 : doy ≤ 365 := by omega
  have hmp0 : 0 ≤ mp := by rw [hmp]; omega
  have hmp11 : mp ≤ 11 := by rw [hmp]; omega
  by_cases hc : mp < 10
  · rw [if_pos hc]
    have hm : ¬(mp + 3 ≤ 2) := by omega
    simp only [hm, if_neg, if_false]
    have hyear : (yv + era * 400) / 400 = era := by omega
    rw [hyear]
    rw [show mp + 3 - 3 = mp by ring]
    rw [show (153 * mp + 2) / 5 + (doy - (153 * mp + 2) / 5 + 1) - 1 = doy by ring]
    rw [show yv + era * 400 - era * 400 = yv by ring]
    omega
  · rw [if_neg hc]
    have hm : mp - 9 ≤ 2 := by omega
    simp only [hm, if_pos, if_true]
    rw [show yv + era * 400 + 1 - 1 = yv + era * 400 by ring]
    have hyear : (yv + era * 400) / 400 = era := by omega
    rw [hyear]
    rw [show mp - 9 + 9 = mp by ring]
    rw [show (153 * mp + 2) / 5 + (doy - (153 * mp + 2) / 5 + 1) - 1 = doy by ring]
    rw [show yv + era * 400 - era * 400 = yv by ring]
    omega

/-- `date + timedelta(days=n)`. -/
def PDate.addDays (dt : PDate) (n : Int) : PDate := civilFromDays (daysFromCivil dt + n)

theorem daysFromCivil_addDays (dt : PDate) (n : Int) :
    daysFromCivil (dt.addDays n) = daysFromCivil dt + n :=
  daysFromCivil_civilFromDays _

/-- Python `min(a, b)` on two dates (returns the first argument on ties). -/
def dateMin (a b : PDate) : PDate := if daysFromCivil a ≤ daysFromCivil b then a else b

/-! ### `shift_sync_window` (streams.py lines 146-165)

The params dict is modelled by its six `dateRange.*` entries, grouped as
two date triples (`datetime.date(year=..., month=..., day=...)` reads back
exactly the stored fields). The remaining query params are untouched by
`shift_sync_window` and irrelevant to the windowing claims. -/

structure WindowParams where
  dstart : PDate
  dend : PDate
deriving DecidableEq

/-- Python truthiness of `forced_window_size if forced_window_size else
date_window_size`: `None` and `0` both fall back to `date_window_size`. -/
def effectiveWindowSize (date_window_size : Int) (forced : Option Int) : Int :=
  match forced with
  | some f => if f ≠ 0 then f else date_window_size
  | none => date_window_size

/-- Move the date window ahead: returns `(current_end, new_end, new_params)`. -/
def shift_sync_window (params : WindowParams) (today : PDate) (date_window_size : Int)
    (forced_window_size : Option Int := none) : PDate × PDate × WindowParams :=
  let current_end := params.dend
  let new_end :=
    dateMin today (current_end.addDays (effectiveWindowSize date_window_size forced_window_size))
  (current_end, new_end, ⟨current_end, new_end⟩)

/-- C4: for every date window with start ≤ end ≤ today and every positive
window size, `shift_sync_window` yields `new_start = old_end` and
`new_end = min(today, old_end + window_size)` (the optional forced window
size replacing the window size when given and non-zero), so the invariant
start ≤ end ≤ today (in day-ordinal order, which is how Python compares
dates) is preserved by every advance. -/
theorem shift_sync_window_advances (params : WindowParams) (today : PDate)
    (ws : Int) (forced : Option Int)
    (hse : daysFromCivil params.dstart ≤ daysFromCivil params.dend)
    (het : daysFromCivil params.dend ≤ daysFromCivil today)
    (hws : 0 < ws) (hforced : ∀ f, forced = some f → 0 ≤ f) :
    (shift_sync_window params today ws forced).1 = params.dend ∧
    (shift_sync_window params today ws forced).2.2.dstart = params.dend ∧
    (shift_sync_window params today ws forced).2.1
      = dateMin today (params.dend.addDays (effectiveWindowSize ws forced)) ∧
    (shift_sync_window params today ws forced).2.2.dend
      = (shift_sync_window params today ws forced).2.1 ∧
    daysFromCivil (shift_sync_window params today ws forced).2.2.dstart
      ≤ daysFromCivil (shift_sync_window params today ws forced).2.2.dend ∧
    daysFromCivil (shift_sync_window params today ws forced).2.2.dend
      ≤ daysFromCivil today := by
  have heff : 0 < effectiveWindowSize ws forced := by
    match forced with
    | none => simpa [effectiveWindowSize] using hws
    | some f =>
      have hf := hforced f rfl
      by_cases hz : f = 0
      · simpa [effectiveWindowSize, hz] using hws
      · simp only [effectiveWindowSize, if_pos hz]
        omega
  refine ⟨rfl, rfl, rfl, rfl, ?_, ?_⟩
  · show daysFromCivil params.dend
      ≤ daysFromCivil (dateMin today (params.dend.addDays (effectiveWindowSize ws forced)))
    rw [dateMin]
    split
    · exact het
    · rw [daysFromCivil_addDays]
      omega
  · show daysFromCivil (dateMin today (params.dend.addDays (effectiveWindowSize ws forced)))
      ≤ daysFromCivil today
    rw [dateMin]
    split
    · exact le_refl _
    · next h => rw [daysFromCivil_addDays] at h ⊢; omega

/-- Witness for C4 at a concrete window. -/
theorem shift_sync_window_advances_witness :
    (daysFromCivil ⟨2024, 1, 1⟩ ≤ daysFromCivil ⟨2024, 1, 10⟩ ∧
     daysFromCivil ⟨2024, 1, 10⟩ ≤ daysFromCivil ⟨2024, 2, 1⟩ ∧
     (0 : Int) < 30) ∧
    (shift_sync_window ⟨⟨2024, 1, 1⟩, ⟨2024, 1, 10⟩⟩ ⟨2024, 2, 1⟩ 30 none).1 = ⟨2024, 1, 10⟩ ∧
    (shift_sync_window ⟨⟨2024, 1, 1⟩, ⟨2024, 1, 10⟩⟩ ⟨2024, 2, 1⟩ 30 none).2.2.dstart
      = ⟨2024, 1, 10⟩ ∧
    (shift_sync_window ⟨⟨2024, 1, 1⟩, ⟨2024, 1, 10⟩⟩ ⟨2024, 2, 1⟩ 30 none).2.1
      = dateMin ⟨2024, 2, 1⟩ ((⟨2024, 1, 10⟩ : PDate).addDays (effectiveWindowSize 30 none)) ∧
    (shift_sync_window ⟨⟨2024, 1, 1⟩, ⟨2024, 1, 10⟩⟩ ⟨2024, 2, 1⟩ 30 none).2.2.dend
      = (shift_sync_window ⟨⟨2024, 1, 1⟩, ⟨2024, 1, 10⟩⟩ ⟨2024, 2, 1⟩ 30 none).2.1 ∧
    daysFromCivil (shift_sync_window ⟨⟨2024, 1, 1⟩, ⟨2024, 1, 10⟩⟩ ⟨2024, 2, 1⟩ 30 none).2.2.dstart
      ≤ daysFromCivil
          (shift_sync_window ⟨⟨2024, 1, 1⟩, ⟨2024, 1, 10⟩⟩ ⟨2024, 2, 1⟩ 30 none).2.2.dend ∧
    daysFromCivil (shift_sync_window ⟨⟨2024, 1, 1⟩, ⟨2024, 1, 10⟩⟩ ⟨2024, 2, 1⟩ 30 none).2.2.dend
      ≤ daysFromCivil ⟨2024, 2, 1⟩ :=
  ⟨⟨by decide, by decide, by decide⟩,
   shift_sync_window_advances ⟨⟨2024, 1, 1⟩, ⟨2024, 1, 10⟩⟩ ⟨2024, 2, 1⟩ 30 none
     (by decide) (by decide) (by decide) (fun f h => by cases h)⟩

/-! ### The analytics date-window loop (`sync_ad_analytics`, streams.py 584-600, 646-689)

The loop is embedded with an explicit fuel bound (the Python `while` loop
need not terminate for non-positive window sizes); `none` models fuel
exhaustion, `some ws` the list of windows whose body actually ran. -/

def date_window_loop (today : PDate) (date_window_size : Int) :
    Nat → PDate → PDate → Option (List (PDate × PDate))
  | 0, _, _ => none
  | fuel + 1, window_start_date, window_end_date =>
    if daysFromCivil window_end_date ≤ daysFromCivil today then
      let res := shift_sync_window ⟨window_start_date, window_end_date⟩ today date_window_size
      if res.1 = res.2.1 then some [(window_start_date, window_end_date)]
      else
        match date_window_loop today date_window_size fuel res.1 res.2.1 with
        | some rest => some ((window_start_date, window_end_date) :: rest)
        | none => none
    else some []

/-- Date windows processed by `sync_ad_analytics`: the window is seeded at
`bookmark − 7 days` (re-fetch look-back), capped at `today`, then advanced
by `shift_sync_window` until the loop condition or the zero-width check
stops it. -/
def sync_ad_analytics_windows (bookmark : PDate) (date_window_size : Int) (today : PDate)
    (fuel : Nat) : Option (List (PDate × PDate)) :=
  let window_start_date := bookmark.addDays (-7)
  let window_end_date := window_start_date.addDays date_window_size
  let window_end_date :=
    if daysFromCivil today < daysFromCivil window_end_date then today else window_end_date
  let window_start_date :=
    if daysFromCivil today < daysFromCivil window_start_date then today else window_start_date
  let window_start_date :=
    if daysFromCivil window_end_date < daysFromCivil window_start_date then window_end_date
    else window_start_date
  date_window_loop today date_window_size fuel window_start_date window_end_date

/-- C5: with bookmark 2024-01-01, window size 30 and today = 2024-02-01 the
date-window loop of an analytics stream processes exactly the two windows
[2023-12-25, 2024-01-24] and [2024-01-24, 2024-02-01] and then terminates
(the loop finishes well within the given fuel). -/
theorem sync_ad_analytics_windows_example :
    sync_ad_analytics_windows ⟨2024, 1, 1⟩ 30 ⟨2024, 2, 1⟩ 10
      = some [(⟨2023, 12, 25⟩, ⟨2024, 1, 24⟩), (⟨2024, 1, 24⟩, ⟨2024, 2, 1⟩)] := by
  decide

/-! ### `split_into_chunks` (streams.py 87-95) and the analytics field chunks
(`sync_ad_analytics`, streams.py 624-634)

The Python generator slices `fields[x:x+chunk_length]` for
`x in range(0, len(fields), chunk_length)`; embedded with a structural fuel
bound of `fields.length` (ample, since each chunk consumes at least one
element when `chunk_length ≥ 1`; `chunk_length = 0` raises in Python and is
mapped to `[]`). -/

def splitChunksAux {α : Type} (n : Nat) : Nat → List α → List (List α)
  | _, [] => []
  | 0, _ :: _ => []
  | fuel + 1, f :: fs => (f :: fs).take n :: splitChunksAux n fuel ((f :: fs).drop n)

def split_into_chunks {α : Type} (fields : List α) (chunk_length : Nat) : List (List α) :=
  splitChunksAux chunk_length fields.length fields

theorem splitChunksAux_nil {α : Type} (n fuel : Nat) :
    splitChunksAux (α := α) n fuel [] = [] := by
  cases fuel <;> rfl

theorem splitChunksAux_cons {α : Type} (n fuel : Nat) (fs : List α) (h : fs ≠ []) :
    splitChunksAux n (fuel + 1) fs = fs.take n :: splitChunksAux n fuel (fs.drop n) := by
  match fs, h with
  | _ :: _, _ => rfl

/-- LinkedIn caps requests at 20 fields; the tap caps chunks at 18 to leave
room for `dateRange` and `pivotValues`. -/
def MAX_CHUNK_LENGTH : Nat := 18

/-- The per-chunk append step of `sync_ad_analytics` (streams.py 631-634). -/
def appendRequiredFields (chunk : List String) : List String :=
  ["dateRange", "pivotValues"].foldl (fun c field => if field ∈ c then c else c ++ [field]) chunk

/-- Chunk construction of `sync_ad_analytics` (streams.py 624-634): one
leading `[dateRange, pivotValues]` chunk, then the selected fields split
into chunks of at most 18, then `dateRange`/`pivotValues` appended to every
chunk that misses them. -/
def sync_ad_analytics_chunks (valid_selected_fields : List String) : List (List String) :=
  let first_chunk := [["dateRange", "pivotValues"]]
  let chunks := first_chunk ++ split_into_chunks valid_selected_fields MAX_CHUNK_LENGTH
  chunks.map appendRequiredFields

theorem appendRequiredFields_mem (c : List String) :
    "dateRange" ∈ appendRequiredFields c ∧ "pivotValues" ∈ appendRequiredFields c := by
  simp only [appendRequiredFields, List.foldl_cons, List.foldl_nil]
  constructor
  · split_ifs <;> simp_all [List.mem_append]
  · split_ifs <;> simp_all [List.mem_append]

theorem split_into_chunks_forty {α : Type} (fields : List α) (hlen : fields.length = 40) :
    split_into_chunks fields MAX_CHUNK_LENGTH
      = [fields.take 18, (fields.drop 18).take 18, fields.drop 36] := by
  have h1 : fields ≠ [] := by
    intro h
    rw [h] at hlen
    simp at hlen
  have hd1 : (fields.drop 18).length = 22 := by simp [hlen]
  have h2 : fields.drop 18 ≠ [] := by
    intro h
    rw [h] at hd1
    simp at hd1
  have hdd : (fields.drop 18).drop 18 = fields.drop 36 := by
    rw [List.drop_drop]
  have hd2 : (fields.drop 36).length = 4 := by simp [hlen]
  have h3 : fields.drop 36 ≠ [] := by
    intro h
    rw [h] at hd2
    simp at hd2
  have htake : (fields.drop 36).take 18 = fields.drop 36 :=
    List.take_of_length_le (by omega)
  have hnil : (fields.drop 36).drop 18 = [] := by
    apply List.drop_eq_nil_of_le
    omega
  rw [split_into_chunks, MAX_CHUNK_LENGTH, hlen]
  rw [show (40 : Nat) = 39 + 1 from rfl, splitChunksAux_cons 18 39 fields h1]
  rw [show (39 : Nat) = 38 + 1 from rfl, splitChunksAux_cons 18 38 _ h2]
  rw [hdd]
  rw [show (38 : Nat) = 37 + 1 from rfl, splitChunksAux_cons 18 37 _ h3]
  rw [htake, hnil, splitChunksAux_nil]

/-- C3: for a 40-field selected list with chunk cap 18, the analytics
chunking produces, besides the mandatory leading `[dateRange, pivotValues]`
chunk, exactly 3 chunks of sizes 18, 18 and 4 drawn in order from the field
list, and after the append step every chunk contains both `dateRange` and
`pivotValues` (the leading chunk staying exactly those two fields). -/
theorem sync_ad_analytics_chunking (fields : List String) (hlen : fields.length = 40) :
    split_into_chunks fields MAX_CHUNK_LENGTH
      = [fields.take 18, (fields.drop 18).take 18, fields.drop 36] ∧
    (split_into_chunks fields MAX_CHUNK_LENGTH).map List.length = [18, 18, 4] ∧
    (sync_ad_analytics_chunks fields).head? = some ["dateRange", "pivotValues"] ∧
    ∀ c ∈ sync_ad_analytics_chunks fields, "dateRange" ∈ c ∧ "pivotValues" ∈ c := by
  have hsplit := split_into_chunks_forty fields hlen
  refine ⟨hsplit, ?_, ?_, ?_⟩
  · rw [hsplit]
    simp [hlen]
  · simp [sync_ad_analytics_chunks]
    rfl
  · intro c hc
    simp only [sync_ad_analytics_chunks, List.map_append, List.mem_append, List.mem_map] at hc
    rcases hc with hc | hc
    · obtain ⟨a, _, rfl⟩ := hc
      exact appendRequiredFields_mem a
    · obtain ⟨c0, _, rfl⟩ := hc
      exact appendRequiredFields_mem c0

/-- Concrete 40-field list for the C3 witness. -/
def fortyFields : List String := (List.range 40).map (fun i => "field" ++ toString i)

/-- Witness for C3 on a concrete 40-field list. -/
theorem sync_ad_analytics_chunking_witness :
    fortyFields.length = 40 ∧
    (split_into_chunks fortyFields MAX_CHUNK_LENGTH
        = [fortyFields.take 18, (fortyFields.drop 18).take 18, fortyFields.drop 36] ∧
      (split_into_chunks fortyFields MAX_CHUNK_LENGTH).map List.length = [18, 18, 4] ∧
      (sync_ad_analytics_chunks fortyFields).head? = some ["dateRange", "pivotValues"] ∧
      ∀ c ∈ sync_ad_analytics_chunks fortyFields, "dateRange" ∈ c ∧ "pivotValues" ∈ c) :=
  ⟨by decide, sync_ad_analytics_chunking fortyFields (by decide)⟩

/-! ### `process_records` (streams.py 321-376)

A record is modelled by the value its bookmark field carries after the
Singer transform (`none` when the field is absent; bookmark instants are
modelled as naturals, `strptime_to_utc` comparison being their order) plus
an opaque payload. The function returns the written records in order, the
updated `max_bookmark_value` and the counter. -/

inductive ReplicationMethod
  | full_table
  | incremental
deriving DecidableEq

structure SingerRecord where
  bookmark : Option Nat
  payload : Nat
deriving DecidableEq

def processRecordsStep (method : ReplicationMethod) (bookmark_field : Bool) (last_datetime : Nat)
    (acc : List SingerRecord × Option Nat × Nat) (record : SingerRecord) :
    List SingerRecord × Option Nat × Nat :=
  match method with
  | .full_table =>
    let newMax :=
      match bookmark_field, record.bookmark with
      | true, some b =>
        match acc.2.1 with
        | none => some b
        | some mb => if mb < b then some b else some mb
      | _, _ => acc.2.1
    (acc.1 ++ [record], newMax, acc.2.2 + 1)
  | .incremental =>
    match bookmark_field, record.bookmark with
    | true, some b =>
      let newMax :=
        match acc.2.1 with
        | none => some b
        | some mb => if mb < b then some b else some mb
      if last_datetime ≤ b then (acc.1 ++ [record], newMax, acc.2.2 + 1)
      else (acc.1, newMax, acc.2.2)
    | _, _ => (acc.1 ++ [record], acc.2.1, acc.2.2 + 1)

def process_records (method : ReplicationMethod) (bookmark_field : Bool)
    (records : List SingerRecord) (max_bookmark_value : Option Nat) (last_datetime : Nat) :
    List SingerRecord × Option Nat × Nat :=
  records.foldl (processRecordsStep method bookmark_field last_datetime)
    ([], max_bookmark_value, 0)

/-- Emission predicate stated from the spec: full refresh always emits; an
incremental record with a present bookmark emits iff its bookmark is at
least the last bookmark; an absent bookmark always emits. -/
def emitsRecord (method : ReplicationMethod) (bookmark_field : Bool) (last_datetime : Nat)
    (r : SingerRecord) : Bool :=
  match method, bookmark_field, r.bookmark with
  | .full_table, _, _ => true
  | .incremental, true, some b => decide (last_datetime ≤ b)
  | .incremental, _, _ => true

theorem process_records_go (method : ReplicationMethod) (bf : Bool) (last : Nat) :
    ∀ (records : List SingerRecord) (w : List SingerRecord) (mb : Option Nat) (c : Nat),
      (records.foldl (processRecordsStep method bf last) (w, mb, c)).1
        = w ++ records.filter (emitsRecord method bf last) ∧
      (records.foldl (processRecordsStep method bf last) (w, mb, c)).2.2
        = c + (records.filter (emitsRecord method bf last)).length := by
  intro records
  induction records with
  | nil => intro w mb c; simp
  | cons r rs ih =>
    intro w mb c
    simp only [List.foldl_cons, List.filter_cons]
    cases method with
    | full_table =>
      simp only [processRecordsStep, emitsRecord]
      refine ⟨?_, ?_⟩
      · rw [(ih _ _ _).1]
        simp
      · rw [(ih _ _ _).2]
        simp
        omega
    | incremental =>
      cases bf with
      | false =>
        simp only [processRecordsStep, emitsRecord]
        refine ⟨?_, ?_⟩
        · rw [(ih _ _ _).1]
          simp
        · rw [(ih _ _ _).2]
          simp
          omega
      | true =>
        cases hb : r.bookmark with
        | none =>
          simp only [processRecordsStep, emitsRecord, hb]
          refine ⟨?_, ?_⟩
          · rw [(ih _ _ _).1]
            simp
          · rw [(ih _ _ _).2]
            simp
            omega
        | some b =>
          simp only [processRecordsStep, emitsRecord, hb]
          by_cases hle : last ≤ b
          · simp only [if_pos hle]
            refine ⟨?_, ?_⟩
            · rw [(ih _ _ _).1]
              simp [hle]
            · rw [(ih _ _ _).2]
              simp [hle]
              omega
          · simp only [if_neg hle]
            refine ⟨?_, ?_⟩
            · rw [(ih _ _ _).1]
              simp [hle]
            · rw [(ih _ _ _).2]
              simp [hle]

/-- C1: `process_records` writes exactly the records selected by the
spec's emission rule: on a FULL_TABLE stream every record; on an
incremental stream a record with a present bookmark iff its bookmark is
`>=` the last bookmark (inclusive timestamp comparison), and a record with
an absent bookmark always. The written count matches. -/
theorem process_records_emission (method : ReplicationMethod) (bookmark_field : Bool)
    (records : List SingerRecord) (max_bookmark_value : Option Nat) (last_datetime : Nat) :
    (process_records method bookmark_field records max_bookmark_value last_datetime).1
      = records.filter (emitsRecord method bookmark_field last_datetime) ∧
    (method = .full_table →
      (process_records method bookmark_field records max_bookmark_value last_datetime).1
        = records) ∧
    (process_records method bookmark_field records max_bookmark_value last_datetime).2.2
      = (records.filter (emitsRecord method bookmark_field last_datetime)).length := by
  have h := process_records_go method bookmark_field last_datetime records [] max_bookmark_value 0
  refine ⟨?_, ?_, ?_⟩
  · rw [process_records, h.1]
    simp
  · intro hm
    subst hm
    rw [process_records, h.1]
    simp [emitsRecord]
  · rw [process_records, h.2]
    simp

/-- Witness for C1 at concrete record batches. -/
theorem process_records_emission_witness :
    (process_records .full_table true [⟨some 5, 0⟩, ⟨none, 1⟩, ⟨some 20, 2⟩] none 10).1
        = [⟨some 5, 0⟩, ⟨none, 1⟩, ⟨some 20, 2⟩] ∧
    (process_records .incremental true [⟨some 5, 0⟩, ⟨none, 1⟩, ⟨some 20, 2⟩] none 10).1
        = [⟨none, 1⟩, ⟨some 20, 2⟩] :=
  ⟨(process_records_emission .full_table true [⟨some 5, 0⟩, ⟨none, 1⟩, ⟨some 20, 2⟩] none 10).2.1
      rfl,
   by
    rw [(process_records_emission .incremental true
          [⟨some 5, 0⟩, ⟨none, 1⟩, ⟨some 20, 2⟩] none 10).1]
    decide⟩

/-! ### `merge_responses` (streams.py 167-248)

A raw analytics record is its `dateRange` substructure (start, and the end
part that merging carries along untouched), its non-empty `pivotValues`
list (the code indexes `[0]` unconditionally, so the head is explicit), and
the remaining fields as an association list. `merge_responses` stamps
`pivot`/`pivot_value` onto each element, merges by composite key with
Python `dict.update` semantics, and optionally resolves pivot-value names.
The resolver boundary (`batch_resolve_urns` over the collected URN set) is
abstracted as a function from the collected URN list to a `code -> name`
mapping; a stream without a resolution config (or a `None` client) is the
`none` resolver. -/

structure AnalyticsElement where
  startDate : PDate
  endDate : Option PDate
  pivotValue : String
  pivotRest : List String
  metrics : List (String × String)
deriving DecidableEq

structure AnalyticsRecord where
  startDate : PDate
  endDate : Option PDate
  pivotValue : String
  pivotRest : List String
  pivot : Option String
  pivot_value : String
  pivot_value_name : Option String
  metrics : List (String × String)
deriving DecidableEq

/-- An element after the loop stamps `element['pivot']` and
`element['pivot_value']` (streams.py 218-219). -/
def prepElement (pivot : Option String) (e : AnalyticsElement) : AnalyticsRecord :=
  { startDate := e.startDate, endDate := e.endDate, pivotValue := e.pivotValue,
    pivotRest := e.pivotRest, pivot := pivot, pivot_value := e.pivotValue,
    pivot_value_name := none, metrics := e.metrics }

/-- Python `old.update(new)` on the generic field dicts. -/
def assocUpd (old new : List (String × String)) : List (String × String) :=
  new.foldl (fun acc kv => assocSet acc kv.1 kv.2) old

/-- `full_records[primary_key].update(element)`: every key the new element
carries overwrites the stored record; `pivot_value_name` is never carried
by an element at merge time, so it is kept. -/
def recordUpdate (old new : AnalyticsRecord) : AnalyticsRecord :=
  { startDate := new.startDate, endDate := new.endDate, pivotValue := new.pivotValue,
    pivotRest := new.pivotRest, pivot := new.pivot, pivot_value := new.pivot_value,
    pivot_value_name := old.pivot_value_name,
    metrics := assocUpd old.metrics new.metrics }

/-- `'{}-{}-{}'.format(start['year'], start['month'], start['day'])`. -/
def dateKeyString (d : PDate) : String :=
  toString d.year ++ "-" ++ toString d.month ++ "-" ++ toString d.day

def recordKey (e : AnalyticsElement) : String × String :=
  (e.pivotValue, dateKeyString e.startDate)

/-- Insert or update in `full_records` (Python dict semantics). -/
def mapUpsert (m : List ((String × String) × AnalyticsRecord)) (k : String × String)
    (r : AnalyticsRecord) : List ((String × String) × AnalyticsRecord) :=
  match m with
  | [] => [(k, r)]
  | (k', r') :: rest =>
    if k' = k then (k', recordUpdate r' r) :: rest else (k', r') :: mapUpsert rest k r

/-- One element of the merge loop; `collect` mirrors
`client and stream_name in resolution_configs` gating the URN collection. -/
def mergeStep (pivot : Option String) (collect : Bool)
    (acc : List ((String × String) × AnalyticsRecord) × List String) (e : AnalyticsElement) :
    List ((String × String) × AnalyticsRecord) × List String :=
  let urns :=
    if collect then (if e.pivotValue ∈ acc.2 then acc.2 else acc.2 ++ [e.pivotValue]) else acc.2
  (mapUpsert acc.1 (recordKey e) (prepElement pivot e), urns)

/-- The page/element double loop of `merge_responses` (streams.py 212-231),
also returning the collected `urns_to_resolve`. -/
def mergePages (pivot : Option String) (collect : Bool) (data : List (List AnalyticsElement)) :
    List ((String × String) × AnalyticsRecord) × List String :=
  data.foldl (fun acc page => page.foldl (mergeStep pivot collect) acc) ([], [])

/-- `record["pivot_value"].split(':')[-1]`: the segment after the last
colon (the whole string when there is none). -/
def splitColonLast (s : String) : String :=
  String.mk (s.toList.foldl (fun acc c => if c = ':' then [] else acc ++ [c]) [])

/-- `record["pivot_value_name"] = resolved_names.get(code, code)`
(streams.py 244-246). -/
def applyResolvedName (resolved_names : List (String × String)) (r : AnalyticsRecord) :
    AnalyticsRecord :=
  let code := splitColonLast r.pivot_value
  { r with pivot_value_name := some ((assocLookup resolved_names code).getD code) }

def merge_responses (pivot : Option String) (data : List (List AnalyticsElement))
    (resolver : Option (List String → List (String × String))) :
    List ((String × String) × AnalyticsRecord) :=
  match resolver with
  | none => (mergePages pivot false data).1
  | some resolve =>
    let res := mergePages pivot true data
    let resolved_names := resolve res.2
    res.1.map (fun kr => (kr.1, applyResolvedName resolved_names kr.2))

theorem assocLookup_not_mem {κ β : Type} [DecidableEq κ] (m : List (κ × β)) (k : κ) :
    k ∉ m.map Prod.fst → assocLookup m k = none := by
  induction m with
  | nil => intro h; rfl
  | cons p rest ih =>
    intro h
    simp only [List.map_cons, List.mem_cons, not_or] at h
    have hne : ¬(p.1 = k) := fun hp => h.1 hp.symm
    simp [assocLookup, hne, ih h.2]

theorem assocLookup_assocUpd (old new : List (String × String)) (f : String)
    (hnd : (new.map Prod.fst).Nodup) :
    assocLookup (assocUpd old new) f = (assocLookup new f).or (assocLookup old f) := by
  induction new generalizing old with
  | nil => simp [assocUpd, assocLookup]
  | cons kv tl ih =>
    simp only [List.map_cons, List.nodup_cons] at hnd
    have hstep : assocUpd old (kv :: tl) = assocUpd (assocSet old kv.1 kv.2) tl := rfl
    rw [hstep, ih _ hnd.2]
    by_cases hk : kv.1 = f
    · subst hk
      have htl : assocLookup tl kv.1 = none := assocLookup_not_mem _ _ hnd.1
      rw [htl, assocLookup_assocSet_self]
      simp [assocLookup]
    · rw [assocLookup_assocSet_ne _ _ _ _ hk]
      have hcons : assocLookup (kv :: tl) f = assocLookup tl f := by
        simp [assocLookup, hk]
      rw [hcons]

theorem assocLookup_mapUpsert_self (m : List ((String × String) × AnalyticsRecord))
    (k : String × String) (r : AnalyticsRecord) :
    assocLookup (mapUpsert m k r) k
      = some (match assocLookup m k with
              | none => r
              | some old => recordUpdate old r) := by
  induction m with
  | nil => simp [mapUpsert, assocLookup]
  | cons p rest ih =>
    by_cases hp : p.1 = k
    · simp [mapUpsert, hp, assocLookup]
    · simp [mapUpsert, hp, assocLookup, ih]

theorem assocLookup_mapUpsert_ne (m : List ((String × String) × AnalyticsRecord))
    (k q : String × String) (r : AnalyticsRecord) (h : q ≠ k) :
    assocLookup (mapUpsert m k r) q = assocLookup m q := by
  have hkq : ¬(k = q) := fun hx => h hx.symm
  induction m with
  | nil => simp [mapUpsert, assocLookup, hkq]
  | cons p rest ih =>
    by_cases hp : p.1 = k
    · simp [mapUpsert, hp, assocLookup, hkq]
    · simp [mapUpsert, hp, assocLookup, ih]

/-- Merging a list of same-key elements into an optional accumulated
record, stated from the spec's description of the merge. -/
def mergeInto (pivot : Option String) (r0 : Option AnalyticsRecord)
    (es : List AnalyticsElement) : Option AnalyticsRecord :=
  es.foldl
    (fun acc e =>
      match acc with
      | none => some (prepElement pivot e)
      | some r => some (recordUpdate r (prepElement pivot e)))
    r0

def mergeOfList (pivot : Option String) (es : List AnalyticsElement) : Option AnalyticsRecord :=
  mergeInto pivot none es

theorem mergeStep_records_lookup (pivot : Option String) (collect : Bool) (k : String × String) :
    ∀ (es : List AnalyticsElement)
      (acc : List ((String × String) × AnalyticsRecord) × List String),
      assocLookup (es.foldl (mergeStep pivot collect) acc).1 k
        = mergeInto pivot (assocLookup acc.1 k)
            (es.filter (fun e => decide (recordKey e = k))) := by
  intro es
  induction es with
  | nil => intro acc; simp [mergeInto]
  | cons e tl ih =>
    intro acc
    simp only [List.foldl_cons, List.filter_cons]
    rw [ih]
    by_cases hk : recordKey e = k
    · have hlk : assocLookup (mergeStep pivot collect acc e).1 k
          = some (match assocLookup acc.1 k with
                  | none => prepElement pivot e
                  | some old => recordUpdate old (prepElement pivot e)) := by
        show assocLookup (mapUpsert acc.1 (recordKey e) (prepElement pivot e)) k = _
        rw [hk]
        exact assocLookup_mapUpsert_self _ _ _
      rw [hlk]
      cases hacc : assocLookup acc.1 k <;> simp [hk, hacc, mergeInto]
    · have hlk : assocLookup (mergeStep pivot collect acc e).1 k = assocLookup acc.1 k := by
        show assocLookup (mapUpsert acc.1 (recordKey e) (prepElement pivot e)) k = _
        exact assocLookup_mapUpsert_ne _ _ _ _ (fun h => hk h.symm)
      rw [hlk]
      simp [hk]

/-- C2: in `merge_responses`, records sharing the composite key
(first pivot value, start-date string) are merged into a single entry: the
entry at any key is the fold of the same-key elements in processing order,
and one `dict.update` step keeps every field of both records, the
later-processed record winning on a field present in both. -/
theorem merge_responses_merging :
    (∀ (pivot : Option String) (data : List (List AnalyticsElement)) (k : String × String),
      assocLookup (merge_responses pivot data none) k
        = mergeOfList pivot (data.flatten.filter (fun e => decide (recordKey e = k)))) ∧
    (∀ (old new : AnalyticsRecord) (f : String), (new.metrics.map Prod.fst).Nodup →
      assocLookup (recordUpdate old new).metrics f
        = (assocLookup new.metrics f).or (assocLookup old.metrics f)) := by
  constructor
  · intro pivot data k
    show assocLookup (mergePages pivot false data).1 k = _
    rw [mergePages, ← List.foldl_flatten]
    rw [mergeStep_records_lookup pivot false k data.flatten ([], [])]
    rfl
  · intro old new f hnd
    exact assocLookup_assocUpd old.metrics new.metrics f hnd

/-- Witness record pair for C2. -/
def mergeRecordA : AnalyticsRecord :=
  { startDate := ⟨2024, 1, 1⟩, endDate := none, pivotValue := "urn:li:geo:5",
    pivotRest := [], pivot := some "MEMBER_COUNTRY_V2", pivot_value := "urn:li:geo:5",
    pivot_value_name := none, metrics := [("clicks", "3"), ("impressions", "70")] }

def mergeRecordB : AnalyticsRecord :=
  { startDate := ⟨2024, 1, 1⟩, endDate := none, pivotValue := "urn:li:geo:5",
    pivotRest := [], pivot := some "MEMBER_COUNTRY_V2", pivot_value := "urn:li:geo:5",
    pivot_value_name := none, metrics := [("impressions", "80"), ("costInUsd", "1.5")] }

/-- Witness for C2: one update step keeps the disjoint fields of both
records and takes the later record's value on the overlapping field. -/
theorem merge_responses_merging_witness :
    (mergeRecordB.metrics.map Prod.fst).Nodup ∧
    assocLookup (recordUpdate mergeRecordA mergeRecordB).metrics "impressions"
      = (assocLookup mergeRecordB.metrics "impressions").or
          (assocLookup mergeRecordA.metrics "impressions") ∧
    assocLookup (recordUpdate mergeRecordA mergeRecordB).metrics "clicks"
      = (assocLookup mergeRecordB.metrics "clicks").or
          (assocLookup mergeRecordA.metrics "clicks") ∧
    assocLookup (recordUpdate mergeRecordA mergeRecordB).metrics "costInUsd"
      = (assocLookup mergeRecordB.metrics "costInUsd").or
          (assocLookup mergeRecordA.metrics "costInUsd") :=
  ⟨by decide,
   merge_responses_merging.2 mergeRecordA mergeRecordB "impressions" (by decide),
   merge_responses_merging.2 mergeRecordA mergeRecordB "clicks" (by decide),
   merge_responses_merging.2 mergeRecordA mergeRecordB "costInUsd" (by decide)⟩

/-- The fields `merge_responses` stamps on every record. -/
def pivotStamped (pivot : Option String) (r : AnalyticsRecord) : Prop :=
  r.pivot = pivot ∧ r.pivot_value = r.pivotValue ∧ r.pivot_value_name = none

theorem prepElement_stamped (pivot : Option String) (e : AnalyticsElement) :
    pivotStamped pivot (prepElement pivot e) :=
  ⟨rfl, rfl, rfl⟩

theorem recordUpdate_stamped (pivot : Option String) (old new : AnalyticsRecord)
    (hold : pivotStamped pivot old) (hnew : pivotStamped pivot new) :
    pivotStamped pivot (recordUpdate old new) :=
  ⟨hnew.1, hnew.2.1, hold.2.2⟩

theorem mapUpsert_stamped (pivot : Option String)
    (m : List ((String × String) × AnalyticsRecord)) (k : String × String)
    (r : AnalyticsRecord) (hm : ∀ kr ∈ m, pivotStamped pivot kr.2)
    (hr : pivotStamped pivot r) :
    ∀ kr ∈ mapUpsert m k r, pivotStamped pivot kr.2 := by
  induction m with
  | nil =>
    intro kr hkr
    simp only [mapUpsert, List.mem_singleton] at hkr
    rw [hkr]
    exact hr
  | cons p rest ih =>
    intro kr hkr
    by_cases hp : p.1 = k
    · simp only [mapUpsert, if_pos hp, List.mem_cons] at hkr
      rcases hkr with hkr | hkr
      · rw [hkr]
        exact recordUpdate_stamped pivot _ _ (hm p (List.mem_cons_self _ _)) hr
      · exact hm kr (List.mem_cons_of_mem _ hkr)
    · simp only [mapUpsert, if_neg hp, List.mem_cons] at hkr
      rcases hkr with hkr | hkr
      · rw [hkr]
        exact hm p (List.mem_cons_self _ _)
      · exact ih (fun q hq => hm q (List.mem_cons_of_mem _ hq)) kr hkr

theorem mergeFold_stamped (pivot : Option String) (collect : Bool) :
    ∀ (es : List AnalyticsElement)
      (acc : List ((String × String) × AnalyticsRecord) × List String),
      (∀ kr ∈ acc.1, pivotStamped pivot kr.2) →
      ∀ kr ∈ (es.foldl (mergeStep pivot collect) acc).1, pivotStamped pivot kr.2 := by
  intro es
  induction es with
  | nil => intro acc hacc; exact hacc
  | cons e tl ih =>
    intro acc hacc
    simp only [List.foldl_cons]
    exact ih _ (mapUpsert_stamped pivot acc.1 (recordKey e) (prepElement pivot e) hacc
      (prepElement_stamped pivot e))

theorem mergePages_stamped (pivot : Option String) (collect : Bool)
    (data : List (List AnalyticsElement)) :
    ∀ kr ∈ (mergePages pivot collect data).1, pivotStamped pivot kr.2 := by
  rw [mergePages, ← List.foldl_flatten]
  exact mergeFold_stamped pivot collect data.flatten ([], []) (by intro kr h; cases h)

/-- C10: every record returned by `merge_responses` carries `pivot` equal
to the pivot argument and `pivot_value` equal to the first element of its
`pivotValues` list; and when a resolution configuration applies, it also
carries `pivot_value_name` equal to the resolved name of the trailing code
segment of its pivot value, falling back to that code itself. -/
theorem merge_responses_pivot_fields (pivot : Option String)
    (data : List (List AnalyticsElement))
    (resolver : Option (List String → List (String × String))) (k : String × String)
    (r : AnalyticsRecord) (hmem : (k, r) ∈ merge_responses pivot data resolver) :
    r.pivot = pivot ∧ r.pivot_value = r.pivotValue ∧
    ∀ resolve, resolver = some resolve →
      r.pivot_value_name
        = some ((assocLookup (resolve (mergePages pivot true data).2)
                  (splitColonLast r.pivot_value)).getD (splitColonLast r.pivot_value)) := by
  cases resolver with
  | none =>
    have hst := mergePages_stamped pivot false data (k, r) hmem
    exact ⟨hst.1, hst.2.1, fun resolve h => by cases h⟩
  | some resolve =>
    simp only [merge_responses, List.mem_map] at hmem
    obtain ⟨⟨k0, r0⟩, hmem0, heq⟩ := hmem
    have hst := mergePages_stamped pivot true data (k0, r0) hmem0
    have hr : r = applyResolvedName (resolve (mergePages pivot true data).2) r0 :=
      congrArg Prod.snd heq.symm
    subst hr
    refine ⟨hst.1, hst.2.1, ?_⟩
    intro resolve0 hres
    cases hres
    rfl

/-- Witness input and resolver for C10. -/
def c10Element : AnalyticsElement :=
  { startDate := ⟨2024, 1, 1⟩, endDate := none, pivotValue := "urn:li:geo:5",
    pivotRest := [], metrics := [("clicks", "3")] }

def c10Resolver : List String → List (String × String) := fun _ => [("5", "Geo Five")]

/-- The record C10's witness expects `merge_responses` to return. -/
def c10Expected : AnalyticsRecord :=
  { startDate := ⟨2024, 1, 1⟩, endDate := none, pivotValue := "urn:li:geo:5",
    pivotRest := [], pivot := some "MEMBER_COUNTRY_V2", pivot_value := "urn:li:geo:5",
    pivot_value_name := some "Geo Five", metrics := [("clicks", "3")] }

/-- Witness for C10 at a concrete page set and resolver. -/
theorem merge_responses_pivot_fields_witness :
    ((("urn:li:geo:5", "2024-1-1"), c10Expected)
        ∈ merge_responses (some "MEMBER_COUNTRY_V2") [[c10Element]] (some c10Resolver)) ∧
    c10Expected.pivot = some "MEMBER_COUNTRY_V2" ∧
    c10Expected.pivot_value = c10Expected.pivotValue ∧
    (∀ resolve, (some c10Resolver : Option (List String → List (String × String)))
        = some resolve →
      c10Expected.pivot_value_name
        = some ((assocLookup
            (resolve (mergePages (some "MEMBER_COUNTRY_V2") true [[c10Element]]).2)
            (splitColonLast c10Expected.pivot_value)).getD
              (splitColonLast c10Expected.pivot_value))) := by
  have hmem : (("urn:li:geo:5", "2024-1-1"), c10Expected)
      ∈ merge_responses (some "MEMBER_COUNTRY_V2") [[c10Element]] (some c10Resolver) := by
    decide
  have h := merge_responses_pivot_fields (some "MEMBER_COUNTRY_V2") [[c10Element]]
    (some c10Resolver) ("urn:li:geo:5", "2024-1-1") c10Expected hmem
  exact ⟨hmem, h.1, h.2.1, h.2.2⟩

/-! ### URN resolvers (urn_resolver.py)

Each `_batch_resolve` splits the code set into chunks of 150 and issues one
`client.get` per chunk, except `SenioritiesResolver._batch_resolve`, which
issues a single request for the whole set. The HTTP client is an oracle
from the chunk index to either an error (any exception raised by the
request) or a decoded response; `none` stands for a falsy response or one
missing the expected collection key. The `codes` set is embedded as a
deduplicated list. Alongside the `code -> name` mapping, each embedding
returns the number of lookup requests issued. -/

inductive LookupElement
  | dict (id : String) (localizedName : Option String)
  | nonDict
deriving DecidableEq

def elementId : LookupElement → Option String
  | .dict id _ => some id
  | .nonDict => none

/-- Python `x or y` on an optional string and a fallback (empty strings are
falsy). -/
def pyOr (a : Option String) (b : String) : String :=
  match a with
  | some s => if s = "" then b else s
  | none => b

/-- The identical per-variant failure handler: `for code in chunk: if code
not in resolved: resolved[code] = code`. -/
def fallbackFold (resolved : List (String × String)) (chunk : List String) :
    List (String × String) :=
  chunk.foldl
    (fun acc code => if (assocLookup acc code).isSome then acc else assocSet acc code code)
    resolved

/-- Success-path element step shared by `FunctionsResolver` and
`SenioritiesResolver`: keep elements that are dicts whose id is a requested
code, reading the name along `name.localized.en_US` with the code as
default. -/
def functionsElementStep (chunk : List String) (acc : List (String × String))
    (el : LookupElement) : List (String × String) :=
  match el with
  | .dict id name => if id ∈ chunk then assocSet acc id (name.getD id) else acc
  | .nonDict => acc

/-- One chunk of `FunctionsResolver._batch_resolve`. -/
def functionsProcessChunk (resolved : List (String × String)) (chunk : List String)
    (resp : Except Unit (Option (List LookupElement))) : List (String × String) :=
  match resp with
  | .ok (some elements) => elements.foldl (functionsElementStep chunk) resolved
  | .ok none => resolved
  | .error _ => fallbackFold resolved chunk

inductive TitleResult
  | obj (localizedName : Option String) (defaultName : Option String)
  | nonDict
deriving DecidableEq

/-- Success-path step of `TitlesResolver`: every entry of
`response['results']` is recorded; dict results read
`name.localized.en_US or name.default or code`, non-dicts map the code to
itself. -/
def titlesResultStep (acc : List (String × String)) (cr : String × TitleResult) :
    List (String × String) :=
  match cr.2 with
  | .obj locName defName => assocSet acc cr.1 (pyOr locName (pyOr defName cr.1))
  | .nonDict => assocSet acc cr.1 cr.1

/-- One chunk of `TitlesResolver._batch_resolve`. -/
def titlesProcessChunk (resolved : List (String × String)) (chunk : List String)
    (resp : Except Unit (Option (List (String × TitleResult)))) : List (String × String) :=
  match resp with
  | .ok (some results) => results.foldl titlesResultStep resolved
  | .ok none => resolved
  | .error _ => fallbackFold resolved chunk

/-- The chunk loop common to the chunked `_batch_resolve` variants. -/
def resolveChunksGo {ρ : Type}
    (processChunk : List (String × String) → List String → ρ → List (String × String))
    (client : Nat → ρ) : Nat → List (List String) → List (String × String) →
    List (String × String)
  | _, [], acc => acc
  | i, ch :: rest, acc =>
    resolveChunksGo processChunk client (i + 1) rest (processChunk acc ch (client i))

/-- `FunctionsResolver._batch_resolve` (urn_resolver.py 43-82): the mapping
and the number of requests issued (one per chunk of 150). -/
def functionsBatchResolve (client : Nat → Except Unit (Option (List LookupElement)))
    (codes : List String) : List (String × String) × Nat :=
  (resolveChunksGo functionsProcessChunk client 0 (split_into_chunks codes 150) [],
   (split_into_chunks codes 150).length)

/-- `TitlesResolver._batch_resolve` (urn_resolver.py 94-136). -/
def titlesBatchResolve (client : Nat → Except Unit (Option (List (String × TitleResult))))
    (codes : List String) : List (String × String) × Nat :=
  (resolveChunksGo titlesProcessChunk client 0 (split_into_chunks codes 150) [],
   (split_into_chunks codes 150).length)

/-- `SenioritiesResolver._batch_resolve` (urn_resolver.py 302-329): no
chunking, a single request for the whole code set. -/
def senioritiesBatchResolve (client : Except Unit (Option (List LookupElement)))
    (codes : List String) : List (String × String) × Nat :=
  match client with
  | .ok (some elements) => (elements.foldl (functionsElementStep codes) [], 1)
  | .ok none => ([], 1)
  | .error _ => (fallbackFold [] codes, 1)

theorem senioritiesBatchResolve_requests
    (client : Except Unit (Option (List LookupElement))) (codes : List String) :
    (senioritiesBatchResolve client codes).2 = 1 := by
  cases client with
  | error e => rfl
  | ok r =>
    cases r with
    | none => rfl
    | some els => rfl

theorem fallbackFold_lookup (code : String) :
    ∀ (ch : List String) (acc : List (String × String)),
      assocLookup (fallbackFold acc ch) code
        = if code ∈ ch then (assocLookup acc code).or (some code) else assocLookup acc code := by
  intro ch
  induction ch with
  | nil => intro acc; simp [fallbackFold]
  | cons a tl ih =>
    intro acc
    have hstep : fallbackFold acc (a :: tl)
        = fallbackFold (if (assocLookup acc a).isSome then acc
                        else assocSet acc a a) tl := rfl
    rw [hstep, ih]
    by_cases hac : a = code
    · subst hac
      have hlk : assocLookup (if (assocLookup acc a).isSome then acc
            else assocSet acc a a) a = (assocLookup acc a).or (some a) := by
        cases hv : assocLookup acc a with
        | none => simp [hv, assocLookup_assocSet_self]
        | some v => simp [hv]
      rw [hlk]
      by_cases htl : a ∈ tl
      · simp only [htl, if_true, List.mem_cons, true_or, if_pos]
        cases assocLookup acc a <;> simp
      · simp [htl]
    · have hlk : assocLookup (if (assocLookup acc a).isSome then acc
            else assocSet acc a a) code = assocLookup acc code := by
        cases hv : assocLookup acc a with
        | none => simp [hv, assocLookup_assocSet_ne _ _ _ _ hac]
        | some v => simp [hv]
      rw [hlk]
      have hiff : (code ∈ a :: tl) ↔ (code ∈ tl) := by
        constructor
        · intro h
          rcases List.mem_cons.1 h with h1 | h1
          · exact absurd h1.symm hac
          · exact h1
        · exact fun h => List.mem_cons_of_mem _ h
      by_cases hm : code ∈ tl
      · rw [if_pos hm, if_pos (hiff.2 hm)]
      · rw [if_neg hm, if_neg (fun hx => hm (hiff.1 hx))]

/-- Result of scanning a functions/seniorities `elements` list for a code,
last matching element winning. -/
def fnElementsLookup (els : List LookupElement) (code : String) (r0 : Option String) :
    Option String :=
  els.foldl
    (fun r el =>
      match el with
      | .dict id name => if id = code then some (name.getD id) else r
      | .nonDict => r) r0

theorem functionsElementsFold_lookup (chunk : List String) (code : String)
    (hmem : code ∈ chunk) :
    ∀ (els : List LookupElement) (acc : List (String × String)),
      assocLookup (els.foldl (functionsElementStep chunk) acc) code
        = fnElementsLookup els code (assocLookup acc code) := by
  intro els
  induction els with
  | nil => intro acc; rfl
  | cons el tl ih =>
    intro acc
    simp only [List.foldl_cons]
    rw [ih]
    cases el with
    | nonDict => rfl
    | dict id name =>
      by_cases hid : id ∈ chunk
      · by_cases hic : id = code
        · subst hic
          simp [functionsElementStep, hid, fnElementsLookup,
            assocLookup_assocSet_self]
        · simp [functionsElementStep, hid, fnElementsLookup, hic,
            assocLookup_assocSet_ne _ _ _ _ hic]
      · have hic : ¬(id = code) := fun h => hid (h ▸ hmem)
        simp [functionsElementStep, hid, fnElementsLookup, hic]

theorem functionsElementsFold_not_mem (chunk : List String) (code : String)
    (hmem : code ∉ chunk) :
    ∀ (els : List LookupElement) (acc : List (String × String)),
      assocLookup (els.foldl (functionsElementStep chunk) acc) code = assocLookup acc code := by
  intro els
  induction els with
  | nil => intro acc; rfl
  | cons el tl ih =>
    intro acc
    simp only [List.foldl_cons]
    rw [ih]
    cases el with
    | nonDict => rfl
    | dict id name =>
      by_cases hid : id ∈ chunk
      · have hic : ¬(id = code) := fun h => hmem (h ▸ hid)
        simp [functionsElementStep, hid, assocLookup_assocSet_ne _ _ _ _ hic]
      · simp [functionsElementStep, hid]

theorem fnElementsLookup_no_id (code : String) :
    ∀ (els : List LookupElement) (r0 : Option String),
      (∀ el ∈ els, elementId el ≠ some code) → fnElementsLookup els code r0 = r0 := by
  intro els
  induction els with
  | nil => intro r0 _; rfl
  | cons el tl ih =>
    intro r0 h
    cases el with
    | nonDict => exact ih r0 (fun e he => h e (List.mem_cons_of_mem _ he))
    | dict id name =>
      have hid : ¬(id = code) := by
        intro hx
        exact (h _ (List.mem_cons_self _ _)) (by simp [elementId, hx])
      simp only [fnElementsLookup, List.foldl_cons, hid, if_false]
      exact ih r0 (fun e he => h e (List.mem_cons_of_mem _ he))

theorem fnElementsLookup_canonical (nmf : String → Option String) (code : String) :
    ∀ (ch : List String) (r0 : Option String), ch.Nodup → code ∈ ch →
      fnElementsLookup (ch.map (fun c => LookupElement.dict c (nmf c))) code r0
        = some ((nmf code).getD code) := by
  intro ch
  induction ch with
  | nil => intro r0 _ h; cases h
  | cons a tl ih =>
    intro r0 hnd hmem
    simp only [List.nodup_cons] at hnd
    simp only [List.map_cons, fnElementsLookup, List.foldl_cons]
    by_cases hac : a = code
    · subst hac
      rw [if_pos rfl]
      have hno : ∀ el ∈ tl.map (fun c => LookupElement.dict c (nmf c)),
          elementId el ≠ some a := by
        intro el hel
        obtain ⟨c, hc, rfl⟩ := List.mem_map.1 hel
        simp only [elementId, ne_eq, Option.some.injEq]
        intro hx
        exact hnd.1 (hx ▸ hc)
      exact fnElementsLookup_no_id a _ _ hno
    · rw [if_neg hac]
      have hmem2 : code ∈ tl := by
        rcases List.mem_cons.1 hmem with h | h
        · exact absurd h.symm hac
        · exact h
      exact ih r0 hnd.2 hmem2

theorem resolveChunksGo_skip {ρ : Type}
    (pc : List (String × String) → List String → ρ → List (String × String))
    (client : Nat → ρ) (code : String)
    (hpres : ∀ acc ch r, code ∉ ch → assocLookup (pc acc ch r) code = assocLookup acc code) :
    ∀ (chunks : List (List String)) (i : Nat) (acc : List (String × String)),
      (∀ ch ∈ chunks, code ∉ ch) →
      assocLookup (resolveChunksGo pc client i chunks acc) code = assocLookup acc code := by
  intro chunks
  induction chunks with
  | nil => intro i acc _; rfl
  | cons ch rest ih =>
    intro i acc h
    have hrec : resolveChunksGo pc client i (ch :: rest) acc
        = resolveChunksGo pc client (i + 1) rest (pc acc ch (client i)) := rfl
    rw [hrec, ih (i + 1) _ (fun c0 hc0 => h c0 (List.mem_cons_of_mem _ hc0))]
    exact hpres acc ch (client i) (h ch (List.mem_cons_self _ _))

theorem resolveChunksGo_main {ρ : Type}
    (pc : List (String × String) → List String → ρ → List (String × String))
    (client : Nat → ρ) (code : String)
    (hpres : ∀ acc ch r, code ∉ ch → assocLookup (pc acc ch r) code = assocLookup acc code)
    (hdep : ∀ acc1 acc2 ch r, assocLookup acc1 code = assocLookup acc2 code →
      assocLookup (pc acc1 ch r) code = assocLookup (pc acc2 ch r) code) :
    ∀ (chunks : List (List String)) (j : Nat) (chj : List String) (i : Nat)
      (acc : List (String × String)),
      chunks[j]? = some chj →
      (∀ jj chjj, chunks[jj]? = some chjj → jj ≠ j → code ∉ chjj) →
      assocLookup acc code = none →
      assocLookup (resolveChunksGo pc client i chunks acc) code
        = assocLookup (pc [] chj (client (i + j))) code := by
  intro chunks
  induction chunks with
  | nil =>
    intro j chj i acc hj _ _
    simp at hj
  | cons ch rest ih =>
    intro j chj i acc hj hothers hacc
    have hrec : resolveChunksGo pc client i (ch :: rest) acc
        = resolveChunksGo pc client (i + 1) rest (pc acc ch (client i)) := rfl
    rw [hrec]
    cases j with
    | zero =>
      have hch : ch = chj := by
        simp only [List.getElem?_cons_zero, Option.some.injEq] at hj
        exact hj
      subst hch
      have hrest : ∀ ch' ∈ rest, code ∉ ch' := by
        intro ch' hmem
        obtain ⟨jj, hjj⟩ := List.mem_iff_getElem?.1 hmem
        exact hothers (jj + 1) ch' (by simpa using hjj) (by omega)
      rw [resolveChunksGo_skip pc client code hpres rest (i + 1) _ hrest]
      rw [show i + 0 = i by omega]
      exact hdep acc [] ch (client i) (by rw [hacc]; rfl)
    | succ j0 =>
      have hch : code ∉ ch :=
        hothers 0 ch (by simp) (by omega)
      have hj0 : rest[j0]? = some chj := by simpa using hj
      have hothers0 : ∀ jj chjj, rest[jj]? = some chjj → jj ≠ j0 → code ∉ chjj := by
        intro jj chjj hjj hne
        exact hothers (jj + 1) chjj (by simpa using hjj) (by omega)
      have hacc0 : assocLookup (pc acc ch (client i)) code = none := by
        rw [hpres acc ch (client i) hch, hacc]
      rw [ih j0 chj (i + 1) _ hj0 hothers0 hacc0]
      rw [show i + (j0 + 1) = i + 1 + j0 by omega]

theorem functionsProcessChunk_pres (code : String) :
    ∀ (acc : List (String × String)) (ch : List String)
      (r : Except Unit (Option (List LookupElement))),
      code ∉ ch → assocLookup (functionsProcessChunk acc ch r) code = assocLookup acc code := by
  intro acc ch r hmem
  cases r with
  | error e =>
    show assocLookup (fallbackFold acc ch) code = _
    rw [fallbackFold_lookup, if_neg hmem]
  | ok o =>
    cases o with
    | none => rfl
    | some els => exact functionsElementsFold_not_mem ch code hmem els acc

theorem functionsProcessChunk_dep (code : String) :
    ∀ (acc1 acc2 : List (String × String)) (ch : List String)
      (r : Except Unit (Option (List LookupElement))),
      assocLookup acc1 code = assocLookup acc2 code →
      assocLookup (functionsProcessChunk acc1 ch r) code
        = assocLookup (functionsProcessChunk acc2 ch r) code := by
  intro acc1 acc2 ch r h
  by_cases hmem : code ∈ ch
  · cases r with
    | error e =>
      show assocLookup (fallbackFold acc1 ch) code = assocLookup (fallbackFold acc2 ch) code
      rw [fallbackFold_lookup, fallbackFold_lookup, if_pos hmem, if_pos hmem, h]
    | ok o =>
      cases o with
      | none => exact h
      | some els =>
        show assocLookup (els.foldl (functionsElementStep ch) acc1) code
            = assocLookup (els.foldl (functionsElementStep ch) acc2) code
        rw [functionsElementsFold_lookup ch code hmem,
          functionsElementsFold_lookup ch code hmem, h]
  · rw [functionsProcessChunk_pres code acc1 ch r hmem,
      functionsProcessChunk_pres code acc2 ch r hmem, h]

theorem splitChunksAux_flatten {α : Type} (n : Nat) (hn : 1 ≤ n) :
    ∀ (fuel : Nat) (fs : List α), fs.length ≤ fuel → (splitChunksAux n fuel fs).flatten = fs := by
  intro fuel
  induction fuel with
  | zero =>
    intro fs h
    have hfs : fs = [] := List.eq_nil_of_length_eq_zero (by omega)
    subst hfs
    rfl
  | succ f ih =>
    intro fs h
    cases fs with
    | nil => rfl
    | cons a as =>
      rw [splitChunksAux_cons n f _ (by simp)]
      simp only [List.flatten_cons]
      rw [ih ((a :: as).drop n) (by simp only [List.length_drop]; simp at h ⊢; omega)]
      exact List.take_append_drop n (a :: as)

theorem split_into_chunks_flatten {α : Type} (codes : List α) (n : Nat) (hn : 1 ≤ n) :
    (split_into_chunks codes n).flatten = codes :=
  splitChunksAux_flatten n hn codes.length codes (le_refl _)

theorem split_into_chunks_nodup_disjoint (codes : List String) (n : Nat) (hn : 1 ≤ n)
    (hnd : codes.Nodup) :
    (∀ ch ∈ split_into_chunks codes n, ch.Nodup) ∧
    (split_into_chunks codes n).Pairwise List.Disjoint := by
  have h := split_into_chunks_flatten codes n hn
  have h2 : (split_into_chunks codes n).flatten.Nodup := by rw [h]; exact hnd
  exact List.nodup_flatten.1 h2

/-- C6 (amended): for the functions resolver (representative of the
variants), every code in a chunk whose request fails maps to itself; a code
found in a successful response maps to the fetched name (or to itself when
the localized name path is missing); but a code absent from a successful
response gets NO entry in the returned mapping — the identity fallback only
covers failed batches. Resolution itself is a total function of the oracle
responses (it never raises). -/
theorem functions_batch_resolve_entries
    (codes : List String) (client : Nat → Except Unit (Option (List LookupElement)))
    (i : Nat) (chunk : List String) (code : String)
    (hnd : codes.Nodup)
    (hchunk : (split_into_chunks codes 150)[i]? = some chunk)
    (hcode : code ∈ chunk) :
    (functionsBatchResolve client codes).2 = (split_into_chunks codes 150).length ∧
    (∀ e, client i = .error e →
      assocLookup (functionsBatchResolve client codes).1 code = some code) ∧
    (∀ els, client i = .ok (some els) → (∀ el ∈ els, elementId el ≠ some code) →
      assocLookup (functionsBatchResolve client codes).1 code = none) ∧
    (∀ (nmf : String → Option String),
      client i = .ok (some (chunk.map (fun c => LookupElement.dict c (nmf c)))) →
      assocLookup (functionsBatchResolve client codes).1 code
        = some ((nmf code).getD code)) := by
  obtain ⟨hchnodup, hdisj⟩ := split_into_chunks_nodup_disjoint codes 150 (by omega) hnd
  have hothers : ∀ jj chjj, (split_into_chunks codes 150)[jj]? = some chjj →
      jj ≠ i → code ∉ chjj := by
    intro jj chjj hjj hne hmem
    obtain ⟨hjlt, hjeq⟩ := List.getElem?_eq_some_iff.1 hjj
    obtain ⟨hilt, hieq⟩ := List.getElem?_eq_some_iff.1 hchunk
    have hpw := List.pairwise_iff_getElem.1 hdisj
    rcases Nat.lt_or_ge jj i with hlt | hge
    · exact hpw jj i hjlt hilt hlt (hjeq ▸ hmem) (hieq ▸ hcode)
    · have hgt : i < jj := by omega
      exact hpw i jj hilt hjlt hgt (hieq ▸ hcode) (hjeq ▸ hmem)
  have hmain := resolveChunksGo_main functionsProcessChunk client code
    (functionsProcessChunk_pres code) (functionsProcessChunk_dep code)
    (split_into_chunks codes 150) i chunk 0 [] hchunk hothers rfl
  rw [show (0 : Nat) + i = i by omega] at hmain
  have hres : (functionsBatchResolve client codes).1
      = resolveChunksGo functionsProcessChunk client 0 (split_into_chunks codes 150) [] := rfl
  refine ⟨rfl, ?_, ?_, ?_⟩
  · intro e he
    rw [hres, hmain, he]
    show assocLookup (fallbackFold [] chunk) code = some code
    rw [fallbackFold_lookup, if_pos hcode]
    rfl
  · intro els he hno
    rw [hres, hmain, he]
    show assocLookup (els.foldl (functionsElementStep chunk) []) code = none
    rw [functionsElementsFold_lookup chunk code hcode]
    exact fnElementsLookup_no_id code els _ hno
  · intro nmf he
    have hchn : chunk.Nodup := by
      obtain ⟨hilt, hieq⟩ := List.getElem?_eq_some_iff.1 hchunk
      exact hchnodup chunk (hieq ▸ List.getElem_mem hilt)
    rw [hres, hmain, he]
    show assocLookup ((chunk.map (fun c => LookupElement.dict c (nmf c))).foldl
        (functionsElementStep chunk) []) code = _
    rw [functionsElementsFold_lookup chunk code hcode]
    exact fnElementsLookup_canonical nmf code chunk _ hchn hcode

/-- Counterexample to C6 as stated: one requested code, a successful
response with an empty element list — the claim says the code should map
to itself, but the returned mapping has no entry at all for it (exactly one
request was made and it did not fail). -/
theorem functions_resolver_missing_entry_cex :
    assocLookup (functionsBatchResolve (fun _ => .ok (some [])) ["5"]).1 "5" = none ∧
    (functionsBatchResolve (fun _ => .ok (some [])) ["5"]).2 = 1 ∧
    ¬(assocLookup (functionsBatchResolve (fun _ => .ok (some [])) ["5"]).1 "5" = some "5") := by
  have h1 : assocLookup (functionsBatchResolve
      (fun _ => .ok (some [])) ["5"]).1 "5" = none := rfl
  exact ⟨h1, rfl, fun h => Option.noConfusion (h1 ▸ h)⟩

/-- Client for the C6 witness: every request fails. -/
def c6Client : Nat → Except Unit (Option (List LookupElement)) := fun _ => .error ()

/-- Witness for C6 (amended) at a concrete failing batch. -/
theorem functions_batch_resolve_entries_witness :
    (["alpha", "beta"] : List String).Nodup ∧
    (split_into_chunks ["alpha", "beta"] 150)[0]? = some ["alpha", "beta"] ∧
    "alpha" ∈ (["alpha", "beta"] : List String) ∧
    assocLookup (functionsBatchResolve c6Client ["alpha", "beta"]).1 "alpha" = some "alpha" :=
  ⟨by decide, rfl, by decide,
   (functions_batch_resolve_entries ["alpha", "beta"] c6Client 0 ["alpha", "beta"] "alpha"
      (by decide) rfl (by decide)).2.1 () rfl⟩

theorem split_into_chunks_two_hundred {α : Type} (codes : List α)
    (hlen : codes.length = 200) :
    split_into_chunks codes 150 = [codes.take 150, codes.drop 150] := by
  have h1 : codes ≠ [] := by
    intro h
    rw [h] at hlen
    simp at hlen
  have hd1 : (codes.drop 150).length = 50 := by simp [hlen]
  have h2 : codes.drop 150 ≠ [] := by
    intro h
    rw [h] at hd1
    simp at hd1
  have htake : (codes.drop 150).take 150 = codes.drop 150 :=
    List.take_of_length_le (by omega)
  have hnil : (codes.drop 150).drop 150 = [] := by
    apply List.drop_eq_nil_of_le
    omega
  rw [split_into_chunks, hlen]
  rw [show (200 : Nat) = 199 + 1 from rfl, splitChunksAux_cons 150 199 codes h1]
  rw [show (199 : Nat) = 198 + 1 from rfl, splitChunksAux_cons 150 198 _ h2]
  rw [htake, hnil, splitChunksAux_nil]

theorem titlesResultsFold_preserve (code : String) :
    ∀ (results : List (String × TitleResult)) (acc : List (String × String)),
      (∀ cr ∈ results, cr.1 ≠ code) →
      assocLookup (results.foldl titlesResultStep acc) code = assocLookup acc code := by
  intro results
  induction results with
  | nil => intro acc _; rfl
  | cons cr tl ih =>
    intro acc h
    have hne : cr.1 ≠ code := h cr (List.mem_cons_self _ _)
    have htl : ∀ cr0 ∈ tl, cr0.1 ≠ code := fun cr0 h0 => h cr0 (List.mem_cons_of_mem _ h0)
    simp only [List.foldl_cons]
    rw [ih _ htl]
    cases hc : cr.2 with
    | obj locName defName => simp [titlesResultStep, hc, assocLookup_assocSet_ne _ _ _ _ hne]
    | nonDict => simp [titlesResultStep, hc, assocLookup_assocSet_ne _ _ _ _ hne]

theorem titlesResultsFold_canonical (nmf : String → String) (code : String) :
    ∀ (ch : List String) (acc : List (String × String)), ch.Nodup → code ∈ ch →
      assocLookup ((ch.map (fun c => (c, TitleResult.obj (some (nmf c)) none))).foldl
          titlesResultStep acc) code
        = some (pyOr (some (nmf code)) (pyOr none code)) := by
  intro ch
  induction ch with
  | nil => intro acc _ h; cases h
  | cons a tl ih =>
    intro acc hnd hmem
    simp only [List.nodup_cons] at hnd
    simp only [List.map_cons, List.foldl_cons]
    by_cases hac : a = code
    · subst hac
      have hpres : ∀ cr ∈ tl.map (fun c => (c, TitleResult.obj (some (nmf c)) none)),
          cr.1 ≠ a := by
        intro cr hcr
        obtain ⟨c, hc, rfl⟩ := List.mem_map.1 hcr
        intro hx
        exact hnd.1 (hx ▸ hc)
      rw [titlesResultsFold_preserve a _ _ hpres]
      simp [titlesResultStep, assocLookup_assocSet_self]
    · have hmem2 : code ∈ tl := by
        rcases List.mem_cons.1 hmem with h | h
        · exact absurd h.symm hac
        · exact h
      rw [show titlesResultStep acc (a, TitleResult.obj (some (nmf a)) none)
          = assocSet acc a (pyOr (some (nmf a)) (pyOr none a)) from rfl]
      rw [ih _ hnd.2 hmem2]

/-- C7 (amended): a chunk-batched resolver (titles shown) given 200
distinct codes and batch cap 150 issues exactly 2 lookup requests, and a
failure of the second batch is isolated: its 50 codes resolve to
themselves while the 150 codes of the first batch resolve to the fetched
names. The seniorities resolver does not batch at all: it issues exactly
one request whatever the code set. -/
theorem titles_batch_resolve_two_batches
    (codes : List String) (hlen : codes.length = 200) (hnd : codes.Nodup)
    (nmf : String → String) (hnm : ∀ c, nmf c ≠ "")
    (client : Nat → Except Unit (Option (List (String × TitleResult))))
    (hc0 : client 0 = .ok (some ((codes.take 150).map
      (fun c => (c, TitleResult.obj (some (nmf c)) none)))))
    (hc1 : client 1 = .error ()) :
    (titlesBatchResolve client codes).2 = 2 ∧
    (∀ c ∈ codes.take 150,
      assocLookup (titlesBatchResolve client codes).1 c = some (nmf c)) ∧
    (∀ c ∈ codes.drop 150,
      assocLookup (titlesBatchResolve client codes).1 c = some c) ∧
    (∀ (codes2 : List String) (sclient : Except Unit (Option (List LookupElement))),
      (senioritiesBatchResolve sclient codes2).2 = 1) := by
  have hchunks := split_into_chunks_two_hundred codes hlen
  have hnd2 : (codes.take 150).Nodup ∧ (codes.drop 150).Nodup ∧
      (codes.take 150).Disjoint (codes.drop 150) := by
    rw [← List.take_append_drop 150 codes] at hnd
    exact List.nodup_append.1 hnd
  have hres : (titlesBatchResolve client codes).1
      = titlesProcessChunk
          (titlesProcessChunk [] (codes.take 150) (client 0))
          (codes.drop 150) (client 1) := by
    show resolveChunksGo titlesProcessChunk client 0 (split_into_chunks codes 150) [] = _
    rw [hchunks]
    rfl
  rw [hc0, hc1] at hres
  have hcount : (titlesBatchResolve client codes).2 = 2 := by
    show (split_into_chunks codes 150).length = 2
    rw [hchunks]
    rfl
  refine ⟨hcount, ?_, ?_, fun codes2 sclient => senioritiesBatchResolve_requests sclient codes2⟩
  · intro c hc
    have hnotdrop : c ∉ codes.drop 150 := fun hmem => hnd2.2.2 hc hmem
    rw [hres]
    show assocLookup (fallbackFold (titlesProcessChunk [] (codes.take 150)
        (.ok (some ((codes.take 150).map
          (fun c => (c, TitleResult.obj (some (nmf c)) none)))))) (codes.drop 150)) c = _
    rw [fallbackFold_lookup, if_neg hnotdrop]
    show assocLookup (((codes.take 150).map
        (fun c => (c, TitleResult.obj (some (nmf c)) none))).foldl titlesResultStep []) c = _
    rw [titlesResultsFold_canonical nmf c (codes.take 150) [] hnd2.1 hc]
    simp [pyOr, hnm c]
  · intro c hc
    have hnottake : c ∉ codes.take 150 := fun hmem => hnd2.2.2 hmem hc
    rw [hres]
    show assocLookup (fallbackFold (titlesProcessChunk [] (codes.take 150)
        (.ok (some ((codes.take 150).map
          (fun c => (c, TitleResult.obj (some (nmf c)) none)))))) (codes.drop 150)) c = _
    rw [fallbackFold_lookup, if_pos hc]
    have hpres : ∀ cr ∈ (codes.take 150).map
        (fun c => (c, TitleResult.obj (some (nmf c)) none)), cr.1 ≠ c := by
      intro cr hcr
      obtain ⟨c0, hc0mem, rfl⟩ := List.mem_map.1 hcr
      intro hx
      exact hnottake (hx ▸ hc0mem)
    show ((assocLookup (((codes.take 150).map
        (fun c => (c, TitleResult.obj (some (nmf c)) none))).foldl titlesResultStep []) c).or
          (some c)) = some c
    rw [titlesResultsFold_preserve c _ _ hpres]
    rfl

/-- 200 distinct codes for the C7 counterexample and witness. -/
def codes200 : List String := (List.range 200).map (fun n => String.mk (List.replicate n 'a'))

theorem codes200_length : codes200.length = 200 := by simp [codes200]

theorem codes200_nodup : codes200.Nodup := by
  apply List.Nodup.map
  · intro a b h
    have hd : List.replicate a 'a' = List.replicate b 'a' := congrArg String.data h
    have hl := congrArg List.length hd
    simpa using hl
  · exact List.nodup_range _

/-- Counterexample to C7 as stated: the seniorities resolver variant,
given 200 distinct codes, issues exactly 1 lookup request, not 2 — it has
no batching at all. -/
theorem seniorities_two_hundred_codes_cex :
    codes200.length = 200 ∧ codes200.Nodup ∧
    (senioritiesBatchResolve (.ok (some [])) codes200).2 = 1 ∧
    ¬((senioritiesBatchResolve (.ok (some [])) codes200).2 = 2) := by
  refine ⟨codes200_length, codes200_nodup, rfl, ?_⟩
  intro h
  have h1 : (senioritiesBatchResolve (.ok (some [])) codes200).2 = 1 := rfl
  rw [h1] at h
  omega

/-- Client for the C7 witness: the first batch succeeds with names, the
second batch fails. -/
def c7Client : Nat → Except Unit (Option (List (String × TitleResult))) := fun i =>
  if i = 0 then
    .ok (some ((codes200.take 150).map
      (fun c => (c, TitleResult.obj (some ("name " ++ c)) none))))
  else .error ()

/-- Witness for C7 (amended) at 200 concrete codes. -/
theorem titles_batch_resolve_two_batches_witness :
    codes200.length = 200 ∧ codes200.Nodup ∧
    ((titlesBatchResolve c7Client codes200).2 = 2 ∧
      (∀ c ∈ codes200.take 150,
        assocLookup (titlesBatchResolve c7Client codes200).1 c = some ("name " ++ c)) ∧
      (∀ c ∈ codes200.drop 150,
        assocLookup (titlesBatchResolve c7Client codes200).1 c = some c) ∧
      (∀ (codes2 : List String) (sclient : Except Unit (Option (List LookupElement))),
        (senioritiesBatchResolve sclient codes2).2 = 1)) :=
  ⟨codes200_length, codes200_nodup,
   titles_batch_resolve_two_batches codes200 codes200_length codes200_nodup
     (fun c => "name " ++ c)
     (fun c h => by
       have h2 := congrArg String.length h
       simp [String.length_append] at h2
       exact absurd h2.1 (by decide))
     c7Client rfl rfl⟩

/-! ### `get_next_url` (streams.py 116-144)

The page body is modelled by the two fields the function reads:
`data.get('metadata', {}).get('nextPageToken', None)` and
`data.get('paging', {}).get('links', [])`. String containment, the
`re.sub(r'pageToken=[^&]+', ...)` substitution and `urllib.parse.unquote`
are embedded on character lists (`unquote` decodes each `%XY` escape to
the code point `XY`, leaving invalid escapes as-is; Python additionally
reassembles multi-byte UTF-8 sequences, which no URL in these claims
uses). -/

def CURSOR_BASED_PAGINATION_STREAMS : List String :=
  ["accounts", "campaign_groups", "campaigns", "creatives"]

/-- Python `pat in s` on strings. -/
def containsSub (s pat : List Char) : Bool :=
  match s with
  | [] => pat.isEmpty
  | _ :: rest => pat.isPrefixOf s || containsSub rest pat

def strContainsSub (s pat : String) : Bool := containsSub s.toList pat.toList

def PAGE_TOKEN_KEY : List Char := "pageToken=".toList

/-- `re.sub(r'pageToken=[^&]+', 'pageToken=<tok>', s)`: replace every
maximal non-empty run of non-`&` characters following `pageToken=`; fuel
is the string length (ample: every step consumes at least one character). -/
def subPageTokenAux (tok : List Char) : Nat → List Char → List Char
  | _, [] => []
  | 0, s => s
  | fuel + 1, c :: rest =>
    if PAGE_TOKEN_KEY.isPrefixOf (c :: rest) then
      let after := (c :: rest).drop 10
      let v := after.takeWhile (fun ch => ch ≠ '&')
      if v.isEmpty then c :: subPageTokenAux tok fuel rest
      else PAGE_TOKEN_KEY ++ tok ++ subPageTokenAux tok fuel (after.drop v.length)
    else c :: subPageTokenAux tok fuel rest

def replacePageToken (url tok : String) : String :=
  String.mk (subPageTokenAux tok.toList url.toList.length url.toList)

def hexDigit (c : Char) : Option Nat :=
  if '0' ≤ c ∧ c ≤ '9' then some (c.toNat - 48)
  else if 'A' ≤ c ∧ c ≤ 'F' then some (c.toNat - 55)
  else if 'a' ≤ c ∧ c ≤ 'f' then some (c.toNat - 87)
  else none

def unquoteChars : List Char → List Char
  | '%' :: a :: b :: rest =>
    match hexDigit a, hexDigit b with
    | some x, some y => Char.ofNat (16 * x + y) :: unquoteChars rest
    | _, _ => '%' :: unquoteChars (a :: b :: rest)
  | c :: rest => c :: unquoteChars rest
  | [] => []

/-- `urllib.parse.unquote`. -/
def unquote (s : String) : String := String.mk (unquoteChars s.toList)

structure PageLink where
  rel : Option String
  href : Option String
deriving DecidableEq

structure PageBody where
  nextPageToken : Option String
  links : List PageLink
deriving DecidableEq

def API_HOST : String := "https://api.linkedin.com"

/-- The `for link in links` loop of `get_next_url` (streams.py 133-143):
an early return for creatives/posts hrefs, otherwise the decoded href of
the last usable `next` link is kept. -/
def linkLoop : Option String → List PageLink → Option String
  | acc, [] => acc
  | acc, link :: rest =>
    if link.rel = some "next" then
      match link.href with
      | some href =>
        if href ≠ "" then
          if strContainsSub href "rest/creatives" || strContainsSub href "rest/posts" then
            some (API_HOST ++ href)
          else linkLoop (some (API_HOST ++ unquote href)) rest
        else linkLoop acc rest
      | none => linkLoop acc rest
    else linkLoop acc rest

def get_next_url (stream_name : String) (next_url : String) (data : PageBody) :
    Option String :=
  if stream_name ∈ CURSOR_BASED_PAGINATION_STREAMS then
    match data.nextPageToken with
    | some next_page_token =>
      if next_page_token ≠ "" then
        if strContainsSub next_url "pageToken=" then
          some (replacePageToken next_url next_page_token)
        else some (next_url ++ "&pageToken=" ++ next_page_token)
      else none
    | none => none
  else linkLoop none data.links

/-- Counterexample to C8 as stated: for a token-based stream the token can
be present in the metadata yet empty, and the code then terminates
pagination (Python truthiness) instead of replacing/appending it as the
claim requires. -/
theorem get_next_url_empty_token_cex :
    (⟨some "", []⟩ : PageBody).nextPageToken = some "" ∧
    get_next_url "accounts" "https://api.linkedin.com/rest/adAccounts?q=search" ⟨some "", []⟩
      = none ∧
    ¬(get_next_url "accounts" "https://api.linkedin.com/rest/adAccounts?q=search" ⟨some "", []⟩
      = some ("https://api.linkedin.com/rest/adAccounts?q=search" ++ "&pageToken=" ++ "")) := by
  have h1 : get_next_url "accounts" "https://api.linkedin.com/rest/adAccounts?q=search"
      ⟨some "", []⟩ = none := by decide
  exact ⟨rfl, h1, fun h => Option.noConfusion (h1 ▸ h)⟩

theorem linkLoop_no_usable (links : List PageLink) :
    ∀ acc, (∀ l ∈ links, l.rel ≠ some "next" ∨ l.href = none ∨ l.href = some "") →
      linkLoop acc links = acc := by
  induction links with
  | nil => intro acc _; rfl
  | cons l rest ih =>
    intro acc h
    have hl := h l (List.mem_cons_self _ _)
    have hrest := fun l0 h0 => h l0 (List.mem_cons_of_mem _ h0)
    rcases hl with hrel | hhref | hhref
    · simp only [linkLoop, if_neg hrel]
      exact ih acc hrest
    · simp only [linkLoop, hhref]
      by_cases hrel : l.rel = some "next" <;> simp [hrel, ih acc hrest]
    · simp only [linkLoop, hhref]
      by_cases hrel : l.rel = some "next" <;> simp [hrel, ih acc hrest]

/-- C8 (amended): for a token-based stream, a present non-empty
`nextPageToken` replaces an existing `pageToken` query parameter or is
appended as one, while an absent or empty token terminates pagination; for
any other stream, the (non-empty) href of the `next` link is used verbatim
(prefixed with the API host) when it targets the creatives or posts
endpoints, and is percent-decoded before reuse otherwise, absence of a
usable `next` link terminating pagination. The last two conjuncts exercise
the substitution and the percent-decoding on concrete URLs. -/
theorem get_next_url_characterization (stream_name next_url : String) (data : PageBody) :
    (stream_name ∈ CURSOR_BASED_PAGINATION_STREAMS →
      ((data.nextPageToken = none ∨ data.nextPageToken = some "") →
        get_next_url stream_name next_url data = none) ∧
      (∀ tok, data.nextPageToken = some tok → ¬(tok = "") →
        (strContainsSub next_url "pageToken=" = false →
          get_next_url stream_name next_url data
            = some (next_url ++ "&pageToken=" ++ tok)) ∧
        (strContainsSub next_url "pageToken=" = true →
          get_next_url stream_name next_url data
            = some (replacePageToken next_url tok)))) ∧
    (stream_name ∉ CURSOR_BASED_PAGINATION_STREAMS →
      ((∀ l ∈ data.links, l.rel ≠ some "next" ∨ l.href = none ∨ l.href = some "") →
        get_next_url stream_name next_url data = none) ∧
      (∀ href, data.links = [⟨some "next", some href⟩] → ¬(href = "") →
        ((strContainsSub href "rest/creatives" || strContainsSub href "rest/posts") = true →
          get_next_url stream_name next_url data = some (API_HOST ++ href)) ∧
        ((strContainsSub href "rest/creatives" || strContainsSub href "rest/posts") = false →
          get_next_url stream_name next_url data = some (API_HOST ++ unquote href)))) ∧
    replacePageToken "https://h/x?a=1&pageToken=old&b=2" "new"
      = "https://h/x?a=1&pageToken=new&b=2" ∧
    unquote "https://h/x?c=List%28urn%3Ali%3AsponsoredCampaign%3A123%29"
      = "https://h/x?c=List(urn:li:sponsoredCampaign:123)" := by
  refine ⟨?_, ?_, by decide, by decide⟩
  · intro hmem
    constructor
    · intro hor
      rcases hor with h | h <;> simp [get_next_url, hmem, h]
    · intro tok htok hne
      constructor
      · intro hc
        simp [get_next_url, hmem, htok, hne, hc]
      · intro hc
        simp [get_next_url, hmem, htok, hne, hc]
  · intro hmem
    constructor
    · intro h
      simp only [get_next_url, if_neg hmem]
      exact linkLoop_no_usable data.links none h
    · intro href hlinks hne
      constructor
      · intro hc
        simp [get_next_url, hmem, hlinks, linkLoop, hne, hc]
      · intro hc
        simp [get_next_url, hmem, hlinks, linkLoop, hne, hc]

/-- Witness for C8 (amended) at concrete inputs for both pagination modes. -/
theorem get_next_url_characterization_witness :
    ("accounts" ∈ CURSOR_BASED_PAGINATION_STREAMS) ∧
    strContainsSub "https://api.linkedin.com/rest/adAccounts?q=search" "pageToken=" = false ∧
    get_next_url "accounts" "https://api.linkedin.com/rest/adAccounts?q=search"
        ⟨some "tok5", []⟩
      = some ("https://api.linkedin.com/rest/adAccounts?q=search" ++ "&pageToken=" ++ "tok5") ∧
    ("video_ads" ∉ CURSOR_BASED_PAGINATION_STREAMS) ∧
    get_next_url "video_ads" "https://api.linkedin.com/rest/posts?q=dscAdAccount"
        ⟨none, [⟨some "next", some "/rest/posts?q=dscAdAccount&start=10"⟩]⟩
      = some (API_HOST ++ "/rest/posts?q=dscAdAccount&start=10") :=
  ⟨by decide, by decide,
   (((get_next_url_characterization "accounts"
        "https://api.linkedin.com/rest/adAccounts?q=search" ⟨some "tok5", []⟩).1
      (by decide)).2 "tok5" rfl (by decide)).1 (by decide),
   by decide,
   (((get_next_url_characterization "video_ads"
        "https://api.linkedin.com/rest/posts?q=dscAdAccount"
        ⟨none, [⟨some "next", some "/rest/posts?q=dscAdAccount&start=10"⟩]⟩).2.1
      (by decide)).2 "/rest/posts?q=dscAdAccount&start=10" rfl (by decide)).1 (by decide)⟩

/-! ### `VideoAds.sync_endpoint` (streams.py 729-738) and `get_bookmark`
(streams.py 308-318)

The parent `LinkedInAds.sync_endpoint` call is an oracle: either it
returns `(total_records, max_bookmark_value)` or it raises an error whose
message is inspected. The state is `none` when it is `None` or has no
`'bookmarks'` key, otherwise the `'bookmarks'` mapping. -/

def PERMISSION_ERROR_TEXT : String :=
  "Not enough permissions to access: partnerApiPostsExternal"

def get_bookmark (state : Option (List (String × String)))
    (tap_stream_id deflt : String) : String :=
  match state with
  | none => deflt
  | some bookmarks => (assocLookup bookmarks tap_stream_id).getD deflt

def videoAdsSyncEndpoint (parent : Except String (Nat × String))
    (state : Option (List (String × String))) (start_date : String) :
    Except String (Nat × String) :=
  match parent with
  | .ok r => .ok r
  | .error err =>
    if strContainsSub err PERMISSION_ERROR_TEXT then
      .ok (0, get_bookmark state "video_ads" start_date)
    else .error err

/-- C9: when syncing video_ads raises an error whose message contains the
named permission-denied text, the sync returns record count 0 together
with the stream's stored bookmark (its `get_bookmark` value, i.e. the
previously stored bookmark when one exists) instead of propagating; every
other error is re-raised unchanged, and a successful parent sync passes
through. -/
theorem video_ads_sync_endpoint_permission (parent : Except String (Nat × String))
    (state : Option (List (String × String))) (start_date : String) :
    (∀ err, parent = .error err → strContainsSub err PERMISSION_ERROR_TEXT = true →
      videoAdsSyncEndpoint parent state start_date
        = .ok (0, get_bookmark state "video_ads" start_date)) ∧
    (∀ err bookmarks b, parent = .error err →
      strContainsSub err PERMISSION_ERROR_TEXT = true →
      state = some bookmarks → assocLookup bookmarks "video_ads" = some b →
      videoAdsSyncEndpoint parent state start_date = .ok (0, b)) ∧
    (∀ err, parent = .error err → strContainsSub err PERMISSION_ERROR_TEXT = false →
      videoAdsSyncEndpoint parent state start_date = .error err) ∧
    (∀ r, parent = .ok r → videoAdsSyncEndpoint parent state start_date = .ok r) := by
  refine ⟨?_, ?_, ?_, ?_⟩
  · intro err hp hc
    simp [videoAdsSyncEndpoint, hp, hc]
  · intro err bookmarks b hp hc hs hb
    simp [videoAdsSyncEndpoint, hp, hc, get_bookmark, hs, hb]
  · intro err hp hc
    simp [videoAdsSyncEndpoint, hp, hc]
  · intro r hp
    simp [videoAdsSyncEndpoint, hp]

/-- Witness for C9 at a concrete permission error and a concrete other
error. -/
theorem video_ads_sync_endpoint_permission_witness :
    strContainsSub
        "400 Not enough permissions to access: partnerApiPostsExternal.FINDER-dscAdAccount"
        PERMISSION_ERROR_TEXT = true ∧
    videoAdsSyncEndpoint
        (.error
          "400 Not enough permissions to access: partnerApiPostsExternal.FINDER-dscAdAccount")
        (some [("video_ads", "2024-01-01T00:00:00Z")]) "2019-01-01T00:00:00Z"
      = .ok (0, "2024-01-01T00:00:00Z") ∧
    strContainsSub "429 Too Many Requests" PERMISSION_ERROR_TEXT = false ∧
    videoAdsSyncEndpoint (.error "429 Too Many Requests")
        (some [("video_ads", "2024-01-01T00:00:00Z")]) "2019-01-01T00:00:00Z"
      = .error "429 Too Many Requests" :=
  ⟨by decide,
   (video_ads_sync_endpoint_permission
      (.error
        "400 Not enough permissions to access: partnerApiPostsExternal.FINDER-dscAdAccount")
      (some [("video_ads", "2024-01-01T00:00:00Z")]) "2019-01-01T00:00:00Z").2.1
     "400 Not enough permissions to access: partnerApiPostsExternal.FINDER-dscAdAccount"
     [("video_ads", "2024-01-01T00:00:00Z")] "2024-01-01T00:00:00Z"
     rfl (by decide) rfl (by decide),
   by decide,
   (video_ads_sync_endpoint_permission (.error "429 Too Many Requests")
      (some [("video_ads", "2024-01-01T00:00:00Z")]) "2019-01-01T00:00:00Z").2.2.1
     "429 Too Many Requests" rfl (by decide)⟩
